import Mathlib

/-!
Verification of the header synthesis, merge and validation pipeline of
eslint-doc-generator against its natural-language specification.

The TypeScript sources under src/lib are shallowly embedded: JS arrays of
lines become `List String`, JS strings become `String` (operated on through
their character lists so that every definition evaluates by kernel
reduction), `undefined`-able values become `Option`, and code that can
`throw` returns `Except String`.  Functions keep the source's names.
Definitions whose file is absent from the repository snapshot (markers.ts,
emojis.ts, configs.ts, rule-options.ts, rule-doc-title-format.ts) are
modelled from the specification and say so in their doc comments.
-/

/-! ## Character-list string primitives (JS semantics, kernel-computable) -/

/-- Boolean prefix test on character lists (the shape of JS `String.prototype.startsWith`). -/
def isPrefixB : List Char → List Char → Bool
  | [], _ => true
  | _ :: _, [] => false
  | a :: as, b :: bs => a == b && isPrefixB as bs

/-- Boolean substring test on character lists. -/
def isSubListB (pat : List Char) : List Char → Bool
  | [] => isPrefixB pat []
  | c :: rest => isPrefixB pat (c :: rest) || isSubListB pat rest

/-- JS `haystack.includes(needle)` on Lean strings. -/
def jsIncludes (s pat : String) : Bool := isSubListB pat.data s.data

/-- JS `s.startsWith(pat)` on Lean strings. -/
def jsStartsWith (s pat : String) : Bool := isPrefixB pat.data s.data

/-- Split a character list at every newline, like JS `str.split('\n')`. -/
def splitOnNewlines : List Char → List (List Char)
  | [] => [[]]
  | c :: rest =>
    if c = '\n' then [] :: splitOnNewlines rest
    else
      match splitOnNewlines rest with
      | [] => [[c]]
      | l :: ls => (c :: l) :: ls

/-! ## src/lib/markdown.ts — `replaceOrCreateHeader` (lines 20-34) -/

/-- JS `Array.prototype.indexOf`: the index of the first line equal to `marker`, or `-1`. -/
def jsIndexOf (marker : String) : List String → Int
  | [] => -1
  | l :: rest =>
    if l = marker then 0
    else if jsIndexOf marker rest = -1 then -1 else jsIndexOf marker rest + 1

/-- `replaceOrCreateHeader` from src/lib/markdown.ts (lines 20-34): replace the header of a
doc up to and including the marker line; when no marker is present, first delete a leading
level-1 title line (`lines.splice(0, 1)`), then insert the new header at the top.  The
final `lines.splice(0, markerLineIndex + 1, ...newHeaderLines)` is rendered as prepending
`newHeaderLines` to the document with its first `markerLineIndex + 1` lines removed (the
stale `markerLineIndex` is `-1` in the deletion branch, so nothing further is removed
there, exactly as in JS). -/
def replaceOrCreateHeader (lines newHeaderLines : List String) (marker : String) :
    List String :=
  let markerLineIndex : Int := jsIndexOf marker lines
  let lines1 :=
    if markerLineIndex == -1 && !lines.isEmpty && jsStartsWith lines.headI "# " then
      lines.drop 1
    else lines
  newHeaderLines ++ lines1.drop (markerLineIndex + 1).toNat

/-- Unfolding equation for `replaceOrCreateHeader`. -/
theorem replaceOrCreateHeader_eq (lines newHeaderLines : List String) (marker : String) :
    replaceOrCreateHeader lines newHeaderLines marker
      = newHeaderLines
        ++ (if jsIndexOf marker lines == -1 && !lines.isEmpty
               && jsStartsWith lines.headI "# " then
              lines.drop 1
            else lines).drop ((jsIndexOf marker lines + 1)).toNat := rfl

/-! ### Facts about `jsIndexOf` -/

theorem jsIndexOf_neg_one_or_nonneg (marker : String) (lines : List String) :
    jsIndexOf marker lines = -1 ∨ 0 ≤ jsIndexOf marker lines := by
  induction lines with
  | nil => exact Or.inl rfl
  | cons a as ih =>
    by_cases ha : a = marker
    · right; simp [jsIndexOf, ha]
    · rcases ih with h | h
      · left; simp [jsIndexOf, ha, h]
      · by_cases hr : jsIndexOf marker as = -1
        · left; simp [jsIndexOf, ha, hr]
        · right; simp [jsIndexOf, ha, hr]; omega

theorem jsIndexOf_eq_neg_one_iff (marker : String) (lines : List String) :
    jsIndexOf marker lines = -1 ↔ marker ∉ lines := by
  induction lines with
  | nil => simp [jsIndexOf]
  | cons a as ih =>
    by_cases ha : a = marker
    · simp [jsIndexOf, ha]
    · by_cases hr : jsIndexOf marker as = -1
      · simp [jsIndexOf, ha, hr, ih.mp hr, Ne.symm ha]
      · have hmem : marker ∈ as := by
          by_contra hn
          exact hr (ih.mpr hn)
        have hne : jsIndexOf marker as + 1 ≠ -1 := by
          rcases jsIndexOf_neg_one_or_nonneg marker as with h | h
          · exact absurd h hr
          · omega
        simp [jsIndexOf, ha, hr, hne, hmem]

theorem jsIndexOf_append (marker : String) (D rest : List String)
    (h : ∀ l ∈ D, l ≠ marker) :
    jsIndexOf marker (D ++ marker :: rest) = (D.length : Int) := by
  induction D with
  | nil => simp [jsIndexOf]
  | cons a as ih =>
    have ha : a ≠ marker := h a (by simp)
    have ih' : jsIndexOf marker (as ++ marker :: rest) = (as.length : Int) :=
      ih (fun l hl => h l (by simp [hl]))
    have hne : jsIndexOf marker (as ++ marker :: rest) ≠ -1 := by
      rw [ih']; omega
    simp [jsIndexOf, ha, hne, ih']

/-- First-occurrence decomposition of a list containing `marker`. -/
theorem jsIndexOf_decomp (marker : String) (lines : List String) (h : marker ∈ lines) :
    ∃ pre post, lines = pre ++ marker :: post ∧ (∀ l ∈ pre, l ≠ marker)
      ∧ jsIndexOf marker lines = (pre.length : Int) := by
  induction lines with
  | nil => cases h
  | cons a as ih =>
    by_cases ha : a = marker
    · exact ⟨[], as, by simp [ha], by simp, by simp [jsIndexOf, ha]⟩
    · have hmem : marker ∈ as := by
        rcases List.mem_cons.mp h with h' | h'
        · exact absurd h'.symm ha
        · exact h'
      obtain ⟨pre, post, heq, hpre, hidx⟩ := ih hmem
      refine ⟨a :: pre, post, by simp [heq], ?_, ?_⟩
      · intro l hl
        rcases List.mem_cons.mp hl with h' | h'
        · exact h' ▸ ha
        · exact hpre l h'
      · have hne : jsIndexOf marker as ≠ -1 := by rw [hidx]; omega
        simp [jsIndexOf, ha, hne, hidx]

/-! ### C1 — idempotence of the header merge -/

/-- Once the document starts with the new header (marker-free lines, then the marker), a
further merge of the same header leaves it unchanged. -/
theorem replaceOrCreateHeader_stable (D rest : List String) (marker : String)
    (hothers : ∀ l ∈ D, l ≠ marker) :
    replaceOrCreateHeader (D ++ marker :: rest) (D ++ [marker]) marker
      = D ++ marker :: rest := by
  have hidx : jsIndexOf marker (D ++ marker :: rest) = (D.length : Int) :=
    jsIndexOf_append marker D rest hothers
  have hcond : (((D.length : Int)) == -1) = false := by
    rw [beq_eq_false_iff_ne]
    omega
  rw [replaceOrCreateHeader_eq, hidx, hcond]
  have htn : (((D.length : Int)) + 1).toNat = D.length + 1 := by omega
  have hdrop : (D ++ marker :: rest).drop (D.length + 1) = rest := by
    have h2 : D ++ marker :: rest = (D ++ [marker]) ++ rest := by simp
    rw [h2]
    have hlen : (D ++ [marker]).length = D.length + 1 := by simp
    rw [← hlen, List.drop_left]
  simp [htn, hdrop]

/-- C1: Header merge is idempotent: for every document (as a list of lines) and every
new-header line list whose last line is the canonical marker and whose other lines do not
equal the marker, applying the merge once and then applying it again with the same header
lines and marker yields the same final document as applying it once. -/
theorem header_merge_idempotent (lines D : List String) (marker : String)
    (hothers : ∀ l ∈ D, l ≠ marker) :
    replaceOrCreateHeader (replaceOrCreateHeader lines (D ++ [marker]) marker)
        (D ++ [marker]) marker
      = replaceOrCreateHeader lines (D ++ [marker]) marker := by
  rw [replaceOrCreateHeader_eq lines]
  rw [List.append_assoc, List.singleton_append]
  exact replaceOrCreateHeader_stable D _ marker hothers

/-- Witness for C1 at a concrete document and header. -/
theorem header_merge_idempotent_witness :
    (∀ l ∈ ["# `test/no-foo`", ""], l ≠ "<!-- end auto-generated rule header -->")
    ∧ replaceOrCreateHeader
        (replaceOrCreateHeader ["# old title", "", "Body."]
          (["# `test/no-foo`", ""] ++ ["<!-- end auto-generated rule header -->"])
          "<!-- end auto-generated rule header -->")
        (["# `test/no-foo`", ""] ++ ["<!-- end auto-generated rule header -->"])
        "<!-- end auto-generated rule header -->"
      = replaceOrCreateHeader ["# old title", "", "Body."]
          (["# `test/no-foo`", ""] ++ ["<!-- end auto-generated rule header -->"])
          "<!-- end auto-generated rule header -->" :=
  ⟨by decide,
   header_merge_idempotent ["# old title", "", "Body."] ["# `test/no-foo`", ""]
     "<!-- end auto-generated rule header -->" (by decide)⟩

/-! ### C2 — marker invariant (corrected: only the FIRST marker occurrence is replaced) -/

/-- C2 counterexample: a document that already contains the marker twice keeps a second
marker after the merge, so the output does not contain the marker exactly once. -/
theorem merge_marker_invariant_cex :
    (replaceOrCreateHeader
        ["# old", "<!-- end auto-generated rule header -->", "x",
          "<!-- end auto-generated rule header -->", "y"]
        (["# new"] ++ ["<!-- end auto-generated rule header -->"])
        "<!-- end auto-generated rule header -->").count
      "<!-- end auto-generated rule header -->" = 2 := by decide

/-- C2 (amended): for every input document that contains the marker line at most once,
after merging a header whose last line is the marker and whose other lines do not equal
the marker, the output contains the marker exactly once, and that occurrence is the last
line of the new header region (the merge replaces only up to the first marker occurrence,
so further duplicate markers in the input would survive). -/
theorem merge_marker_invariant (lines D : List String) (marker : String)
    (hD : ∀ l ∈ D, l ≠ marker) (hcount : lines.count marker ≤ 1) :
    (replaceOrCreateHeader lines (D ++ [marker]) marker).count marker = 1
    ∧ ∃ rest, replaceOrCreateHeader lines (D ++ [marker]) marker
        = (D ++ [marker]) ++ rest ∧ marker ∉ rest := by
  have hDm : marker ∉ D := fun h => hD marker h rfl
  have hcountH : ((D ++ [marker]).count marker) = 1 := by
    simp [List.count_append, List.count_eq_zero.mpr hDm]
  have hmain : ∃ rest, replaceOrCreateHeader lines (D ++ [marker]) marker
      = (D ++ [marker]) ++ rest ∧ marker ∉ rest := by
    by_cases hmem : marker ∈ lines
    · obtain ⟨pre, post, heq, hpre, hidx⟩ := jsIndexOf_decomp marker lines hmem
      have hcond : ((jsIndexOf marker lines) == -1) = false := by
        rw [hidx, beq_eq_false_iff_ne]
        omega
      have htn : (jsIndexOf marker lines + 1).toNat = pre.length + 1 := by
        rw [hidx]; omega
      have hpost : marker ∉ post := by
        rw [heq] at hcount
        have hpre0 : pre.count marker = 0 :=
          List.count_eq_zero.mpr (fun h => hpre marker h rfl)
        simp [List.count_append, hpre0, List.count_cons] at hcount
        exact List.count_eq_zero.mp (by omega)
      refine ⟨post, ?_, hpost⟩
      rw [replaceOrCreateHeader_eq, hcond, htn]
      simp only [Bool.false_and]
      rw [if_neg (by simp)]
      rw [heq]
      congr 1
      have h2 : pre ++ marker :: post = (pre ++ [marker]) ++ post := by simp
      rw [h2]
      have hlen : (pre ++ [marker]).length = pre.length + 1 := by simp
      rw [← hlen, List.drop_left]
    · have hidx : jsIndexOf marker lines = -1 :=
        (jsIndexOf_eq_neg_one_iff marker lines).mpr hmem
      have htn : (jsIndexOf marker lines + 1).toNat = 0 := by rw [hidx]; rfl
      rw [replaceOrCreateHeader_eq, htn]
      by_cases hc : (jsIndexOf marker lines == -1 && !lines.isEmpty
          && jsStartsWith lines.headI "# ") = true
      · refine ⟨lines.drop 1, ?_, ?_⟩
        · rw [if_pos hc, List.drop_zero]
        · intro h
          exact hmem (List.drop_subset 1 lines h)
      · refine ⟨lines, ?_, hmem⟩
        rw [if_neg hc, List.drop_zero]
  obtain ⟨rest, hout, hrest⟩ := hmain
  refine ⟨?_, rest, hout, hrest⟩
  rw [hout, List.count_append, hcountH, List.count_eq_zero.mpr hrest]

/-- Witness for the amended C2 at a concrete marker-free document. -/
theorem merge_marker_invariant_witness :
    (replaceOrCreateHeader ["# old", "", "Body."]
        (["# `test/no-foo`", ""] ++ ["<!-- end auto-generated rule header -->"])
        "<!-- end auto-generated rule header -->").count
        "<!-- end auto-generated rule header -->" = 1
    ∧ ∃ rest, replaceOrCreateHeader ["# old", "", "Body."]
        (["# `test/no-foo`", ""] ++ ["<!-- end auto-generated rule header -->"])
        "<!-- end auto-generated rule header -->"
        = (["# `test/no-foo`", ""] ++ ["<!-- end auto-generated rule header -->"]) ++ rest
        ∧ "<!-- end auto-generated rule header -->" ∉ rest :=
  merge_marker_invariant ["# old", "", "Body."] ["# `test/no-foo`", ""]
    "<!-- end auto-generated rule header -->" (by decide) (by decide)

/-! ### C6 — legacy-title removal with frame preservation -/

/-- C6: for every document that contains no marker line and whose first line starts with a
level-1 heading marker, the merge deletes that first line, prepends the new header, and
leaves every other original line unchanged and in order. -/
theorem merge_legacy_title (l0 : String) (rest H : List String) (marker : String)
    (hnomark : marker ∉ l0 :: rest) (htitle : jsStartsWith l0 "# " = true) :
    replaceOrCreateHeader (l0 :: rest) H marker = H ++ rest := by
  have hidx : jsIndexOf marker (l0 :: rest) = -1 :=
    (jsIndexOf_eq_neg_one_iff marker (l0 :: rest)).mpr hnomark
  rw [replaceOrCreateHeader_eq, hidx]
  simp [htitle, List.headI]

/-- Witness for C6 at a concrete legacy document. -/
theorem merge_legacy_title_witness :
    "M" ∉ ["# Old Title", "", "Body text.", "  indented"]
    ∧ jsStartsWith "# Old Title" "# " = true
    ∧ replaceOrCreateHeader ["# Old Title", "", "Body text.", "  indented"]
        ["# New Title", "M"] "M"
      = ["# New Title", "M"] ++ ["", "Body text.", "  indented"] :=
  ⟨by decide, by decide,
   merge_legacy_title "# Old Title" ["", "Body text.", "  indented"]
     ["# New Title", "M"] "M" (by decide) (by decide)⟩

/-! ## Data model for rules and plugins (src/lib/types.ts is not in the snapshot; the
fields are the ones the sources under src/lib read) -/

/-- `meta.docs` of a rule: optional description and type-checking flag. -/
structure RuleDocs where
  description : Option String := none
  requiresTypeChecking : Option Bool := none

/-- `meta` of an object-style rule.  `schema` is modelled from the spec as the list of the
named option keys the structured options descriptor declares (§3, §4.5). -/
structure RuleMeta where
  docs : Option RuleDocs := none
  deprecated : Option Bool := none
  fixable : Option String := none
  hasSuggestions : Option Bool := none
  replacedBy : Option (List String) := none
  schema : List String := []

/-- An object-style rule module. -/
structure RuleModule where
  meta : RuleMeta

/-- A registered rule: object-style, or the legacy function-style format (from which no
metadata can be extracted). -/
inductive PluginRule where
  | obj (rule : RuleModule)
  | fn

/-- The loaded plugin: an optional rule registry. -/
structure Plugin where
  rules : Option (List (String × PluginRule)) := none

/-- JS truthiness of an optional string: `undefined` and the empty string are falsy. -/
def jsTruthyStr : Option String → Bool
  | none => false
  | some s => !s.data.isEmpty

/-! ## Constants modelled from the spec (their files are not in the snapshot) -/

/-- Modelled from the spec: the canonical end-of-header sentinel line (markers.ts is not in
src/; §6: "a single fixed sentinel line inserted at the end of every generated header"). -/
def END_RULE_HEADER_MARKER : String := "<!-- end auto-generated rule header -->"

/-- Modelled from the spec: the configs status badge emoji (emojis.ts is not in src/); the
glyph value is irrelevant to the claims, only its placement in the message. -/
def EMOJI_CONFIGS : String := "💼"

/-- Modelled from the spec: the recommended-config badge emoji (emojis.ts is not in src/). -/
def EMOJI_CONFIG_RECOMMENDED : String := "✅"

/-- Modelled from the spec: the deprecated badge emoji (emojis.ts is not in src/). -/
def EMOJI_DEPRECATED : String := "❌"

/-- Modelled from the spec: the fixable badge emoji (emojis.ts is not in src/). -/
def EMOJI_FIXABLE : String := "🔧"

/-- Modelled from the spec: the has-suggestions badge emoji (emojis.ts is not in src/). -/
def EMOJI_HAS_SUGGESTIONS : String := "💡"

/-- Modelled from the spec: the default title format (rule-doc-title-format.ts is not in
src/).  The spec (§4.4, §6) lists the supported formats and the CLI declares a default but
the spec does not name it; the repository's constant is the
description-with-prefixed-name format.  No claim's truth value depends on which of the
supported formats is the default. -/
def RULE_DOC_TITLE_FORMAT_DEFAULT : String := "desc-parens-prefix-name"

/-! ## src/lib/rule-notices.ts — title formatting (lines 140-183) -/

/-- A JS word character, as matched by the regex `\w`. -/
def isWordChar (c : Char) : Bool :=
  ('a' ≤ c && c ≤ 'z') || ('A' ≤ c && c ≤ 'Z') || ('0' ≤ c && c ≤ '9') || c == '_'

/-- Character-level body of `toSentenceCase`: the regex `/^\w/` matches only the first
character (when it is a word character), and the replacement upper-cases that single
character — `txt.slice(1)` of a one-character match is empty, so the remaining characters
of the string are left untouched. -/
def toSentenceCaseChars : List Char → List Char
  | [] => []
  | c :: rest => if isWordChar c then c.toUpper :: rest else c :: rest

/-- `toSentenceCase` from src/lib/rule-notices.ts (lines 140-144). -/
def toSentenceCase (s : String) : String := String.mk (toSentenceCaseChars s.data)

/-- Character-level body of `removeTrailingPeriod`: the regex `/\.$/` strips one trailing
period. -/
def removeTrailingPeriodChars (l : List Char) : List Char :=
  match l.getLast? with
  | some '.' => l.dropLast
  | _ => l

/-- `removeTrailingPeriod` from src/lib/rule-notices.ts (lines 146-148). -/
def removeTrailingPeriod (s : String) : String := String.mk (removeTrailingPeriodChars s.data)

/-- `makeTitle` from src/lib/rule-notices.ts (lines 150-183).  The format parameter is a
plain string at runtime; an unrecognized format reaches the `default` switch case and
throws, modelled as `Except.error`.  A format containing `desc` falls back to
`prefix-name` when the rule has no (truthy) description. -/
def makeTitle (name : String) (description : Option String) (pluginPrefix : String)
    (ruleDocTitleFormat : Option String) : Except String String :=
  let descriptionFormatted : Option String :=
    if jsTruthyStr description then
      some (removeTrailingPeriod (toSentenceCase (description.getD "")))
    else none
  let fmt0 := ruleDocTitleFormat.getD RULE_DOC_TITLE_FORMAT_DEFAULT
  let fmt := if jsIncludes fmt0 "desc" && !jsTruthyStr description then "prefix-name"
             else fmt0
  if fmt = "desc" then
    .ok ("# " ++ descriptionFormatted.getD "undefined")
  else if fmt = "desc-parens-name" then
    .ok ("# " ++ descriptionFormatted.getD "undefined" ++ " (`" ++ name ++ "`)")
  else if fmt = "desc-parens-prefix-name" then
    .ok ("# " ++ descriptionFormatted.getD "undefined" ++ " (`" ++ pluginPrefix ++ "/"
      ++ name ++ "`)")
  else if fmt = "name" then
    .ok ("# `" ++ name ++ "`")
  else if fmt = "prefix-name" then
    .ok ("# `" ++ pluginPrefix ++ "/" ++ name ++ "`")
  else
    .error ("Unhandled rule doc title format: " ++ fmt)

/-! ## src/lib/rule-notices.ts — notice applicability (lines 51-66) -/

/-- The per-rule notice applicability record computed by `getNoticesForRule`. -/
structure NoticeSet where
  configs : Bool
  configRecommended : Bool
  deprecated : Bool
  fixable : Bool
  hasSuggestions : Bool

/-- `getNoticesForRule` from src/lib/rule-notices.ts (lines 51-66).  `Boolean(fixable)` is
JS truthiness of the optional string. -/
def getNoticesForRule (rule : RuleModule) (configsEnabled : List String) : NoticeSet where
  configs := decide (configsEnabled.length > 1)
    || (decide (configsEnabled.length = 1) && configsEnabled.headI != "recommended")
  configRecommended :=
    decide (configsEnabled.length = 1) && configsEnabled.headI == "recommended"
  deprecated := rule.meta.deprecated.getD false
  fixable := jsTruthyStr rule.meta.fixable
  hasSuggestions := rule.meta.hasSuggestions.getD false

/-! ### C3 — notice exclusivity -/

/-- C3: for every rule and every list of enabling configs, the config-recommended notice
applies iff the list is exactly `["recommended"]`; the configs notice applies iff the list
has more than one element, or exactly one element that is not `"recommended"`; hence the
two notices are never both applicable. -/
theorem notice_exclusivity (rule : RuleModule) (cfgs : List String) :
    ((getNoticesForRule rule cfgs).configRecommended = true ↔ cfgs = ["recommended"])
    ∧ ((getNoticesForRule rule cfgs).configs = true ↔
        (1 < cfgs.length ∨ ∃ c, cfgs = [c] ∧ c ≠ "recommended"))
    ∧ ¬((getNoticesForRule rule cfgs).configRecommended = true
        ∧ (getNoticesForRule rule cfgs).configs = true) := by
  match cfgs with
  | [] => simp [getNoticesForRule]
  | [c] =>
    by_cases hc : c = "recommended" <;>
      simp_all [getNoticesForRule, List.headI]
  | a :: b :: t =>
    simp [getNoticesForRule, List.headI]

/-- Witness for C3: a rule enabled exactly by the `recommended` config gets the
config-recommended notice. -/
theorem notice_exclusivity_witness :
    (getNoticesForRule ⟨{}⟩ ["recommended"]).configRecommended = true :=
  ((notice_exclusivity ⟨{}⟩ ["recommended"]).1).mpr rfl

/-! ### C5 — sentence-casing of the description (corrected: the rest is NOT lower-cased) -/

/-- The spec's reading of sentence case for C5 (claim-side definition, for comparison with
the source's `toSentenceCase`): first character upper-cased and all remaining characters
lower-cased. -/
def specSentenceCase (s : String) : String :=
  match s.data with
  | [] => s
  | c :: rest => String.mk (c.toUpper :: rest.map Char.toLower)

/-- C5 counterexample: for the description `"FOO bar."`, the title formatter emits
`# FOO bar` (rest of the description untouched), not the claim's sentence-cased
`# Foo bar`. -/
theorem title_sentence_case_cex :
    makeTitle "no-foo" (some "FOO bar.") "test" (some "desc")
      ≠ Except.ok ("# " ++ removeTrailingPeriod (specSentenceCase "FOO bar.")) := by
  have h1 : makeTitle "no-foo" (some "FOO bar.") "test" (some "desc")
      = Except.ok "# FOO bar" := rfl
  have h2 : ("# " ++ removeTrailingPeriod (specSentenceCase "FOO bar.")) = "# Foo bar" := rfl
  rw [h1, h2]
  intro h
  exact absurd (Except.ok.inj h) (by decide)

/-- C5 (amended): for every description whose first character is a word character, the
title formatter upper-cases that first character, leaves all remaining characters
unchanged (it does not lower-case them), and strips one trailing period, before inserting
the result into the description-based title format. -/
theorem title_sentence_case_amended (name pluginPrefix : String) (c : Char)
    (rest : List Char) (hw : isWordChar c = true) :
    makeTitle name (some (String.mk (c :: rest))) pluginPrefix (some "desc")
      = Except.ok ("# " ++ removeTrailingPeriod (String.mk (c.toUpper :: rest))) := by
  have hinc : jsIncludes "desc" "desc" = true := rfl
  have htru : jsTruthyStr (some (String.mk (c :: rest))) = true := rfl
  have hts : toSentenceCase (String.mk (c :: rest)) = String.mk (c.toUpper :: rest) := by
    simp [toSentenceCase, toSentenceCaseChars, hw]
  simp [makeTitle, hinc, htru, hts]

/-- Witness for the amended C5 at the concrete description `fOO bar.`. -/
theorem title_sentence_case_amended_witness :
    isWordChar 'f' = true
    ∧ makeTitle "no-foo" (some (String.mk ('f' :: "OO bar.".data))) "test" (some "desc")
      = Except.ok ("# " ++ removeTrailingPeriod (String.mk ('f'.toUpper :: "OO bar.".data))) :=
  ⟨by decide, title_sentence_case_amended "no-foo" "test" 'f' "OO bar.".data (by decide)⟩

/-! ### C10 — fixable notice vs. RuleDetails.fixable -/

/-- The per-rule details record gathered by `generate`. -/
structure RuleDetails where
  name : String
  description : Option String
  fixable : Bool
  hasSuggestions : Bool
  requiresTypeChecking : Bool
  deprecated : Bool
  schema : List String

/-- The `RuleDetails` extraction of `generate` (src/lib/generator.ts lines 91-117):
`fixable` is true only when `meta.fixable` is truthy and equal to `code` or `whitespace`;
function-style rules yield the degraded record. -/
def ruleDetailsOf (name : String) (rule : PluginRule) : RuleDetails :=
  match rule with
  | .obj r =>
    { name := name
      description := r.meta.docs.bind (fun d => d.description)
      fixable :=
        if jsTruthyStr r.meta.fixable then
          ["code", "whitespace"].contains (r.meta.fixable.getD "")
        else false
      hasSuggestions := r.meta.hasSuggestions.getD false
      requiresTypeChecking := (r.meta.docs.bind (fun d => d.requiresTypeChecking)).getD false
      deprecated := r.meta.deprecated.getD false
      schema := r.meta.schema }
  | .fn =>
    { name := name, description := none, fixable := false, hasSuggestions := false
      requiresTypeChecking := false, deprecated := false, schema := [] }

/-- C10: whenever `meta.fixable` is a truthy string, the rule-doc header gets the fixable
notice, while the `RuleDetails` record extracted for the same rule sets `fixable` iff the
string is exactly `code` or `whitespace` — so they disagree for values such as `other`. -/
theorem fixable_notice_vs_details (name : String) (m : RuleMeta) (cfgs : List String)
    (s : String) (hfix : m.fixable = some s) (hne : s ≠ "") :
    (getNoticesForRule ⟨m⟩ cfgs).fixable = true
    ∧ ((ruleDetailsOf name (PluginRule.obj ⟨m⟩)).fixable = true
        ↔ (s = "code" ∨ s = "whitespace")) := by
  have hdata : s.data ≠ [] := by
    intro h
    apply hne
    cases s with
    | mk d =>
      simp only at h
      rw [h]
  have htru : jsTruthyStr m.fixable = true := by
    rw [hfix]
    simp [jsTruthyStr, hdata]
  have htru2 : jsTruthyStr (some s) = true := hfix ▸ htru
  refine ⟨?_, ?_⟩
  · simp [getNoticesForRule, htru]
  · simp only [ruleDetailsOf, hfix, htru2, Option.getD_some, if_true]
    simp [List.contains]

/-- Witness for C10 at `meta.fixable = some "other"`: the notice fires while the details
record's `fixable` is false. -/
theorem fixable_notice_vs_details_witness :
    (getNoticesForRule ⟨{ fixable := some "other" }⟩ []).fixable = true
    ∧ (ruleDetailsOf "no-foo" (PluginRule.obj ⟨{ fixable := some "other" }⟩)).fixable
        = false := by
  have h := fixable_notice_vs_details "no-foo" { fixable := some "other" } [] "other" rfl
    (by decide)
  refine ⟨h.1, ?_⟩
  rcases Bool.eq_false_or_eq_true
      (ruleDetailsOf "no-foo" (PluginRule.obj ⟨{ fixable := some "other" }⟩)).fixable
    with hf | hf
  · exact absurd (h.2.mp hf) (by decide)
  · exact hf

/-! ## src/lib/markdown.ts — `findSectionHeader` (lines 39-63)

The regex `##.* ${str}.*\n` (flags `gi`) never crosses a newline except for its final
`\n`, so each match lies within one newline-terminated line; within a line the match
starts at the first `##` (the scan takes the earliest successful start, and a space
followed by the phrase occurring after a later `##` also occurs after the first one) and
runs to the line's newline; a line can match only when, at or after two characters past
that first `##`, it contains a space followed by the search phrase, case-insensitively.
The final line of the text has no terminating newline, so it can never match. -/

/-- The index of the first occurrence of `##` in a line, if any. -/
def firstHashIdx : List Char → Option Nat
  | '#' :: '#' :: _ => some 0
  | _ :: rest => (firstHashIdx rest).map (· + 1)
  | [] => none

/-- The match the regex `##.* ${str}.*\n` produces on one newline-terminated line, if
any: from the line's first `##` through the newline. -/
def jsLineMatch (str : String) (line : List Char) : Option String :=
  match firstHashIdx line with
  | none => none
  | some i =>
    if isSubListB ((' ' :: str.data).map Char.toLower) ((line.drop (i + 2)).map Char.toLower)
    then some (String.mk (line.drop i ++ ['\n']))
    else none

/-- All matches of the regex over the text, in order (`[...markdown.matchAll(regexp)]`
mapped to `match[0]`): every newline-terminated line's match. -/
def sectionPotentialMatches (markdown str : String) : List String :=
  (splitOnNewlines markdown.data).dropLast.filterMap (jsLineMatch str)

/-- The first element of the matches sorted ascending by length (JS stable sort with the
comparator `a.length - b.length`, then `[0]`): the earliest match of minimal length. -/
def shortestOf : List String → String
  | [] => ""
  | [m] => m
  | m :: m2 :: rest =>
    let s := shortestOf (m2 :: rest)
    if m.length ≤ s.length then m else s

/-- `findSectionHeader` from src/lib/markdown.ts (lines 39-63). -/
def findSectionHeader (markdown str : String) : Option String :=
  match sectionPotentialMatches markdown str with
  | [] => none
  | [m] => some m
  | m :: m2 :: rest => some (shortestOf (m :: m2 :: rest))

theorem shortestOf_mem : ∀ (l : List String), l ≠ [] → shortestOf l ∈ l
  | [], h => absurd rfl h
  | [m], _ => by simp [shortestOf]
  | m :: m2 :: rest, _ => by
    have ih := shortestOf_mem (m2 :: rest) (by simp)
    by_cases hle : m.length ≤ (shortestOf (m2 :: rest)).length
    · simp [shortestOf, hle]
    · simp only [shortestOf, if_neg hle]
      exact List.mem_cons_of_mem m ih

theorem shortestOf_min : ∀ (l : List String), ∀ x ∈ l, (shortestOf l).length ≤ x.length
  | [], x, hx => absurd hx (by simp)
  | [m], x, hx => by
    simp at hx
    simp [shortestOf, hx]
  | m :: m2 :: rest, x, hx => by
    rcases List.mem_cons.mp hx with h | h
    · by_cases hle : m.length ≤ (shortestOf (m2 :: rest)).length
      · simp [shortestOf, hle, h]
      · simp only [shortestOf, if_neg hle]
        subst h
        omega
    · have ih := shortestOf_min (m2 :: rest) x h
      by_cases hle : m.length ≤ (shortestOf (m2 :: rest)).length
      · simp only [shortestOf, if_pos hle]
        omega
      · simp only [shortestOf, if_neg hle]
        exact ih

/-! ### C9 — section locator result -/

/-- C9: for every markdown text and search phrase, if no line matches the heading pattern
the locator reports not found; if exactly one matches it returns that match; if two or
more match, it returns a matching line of minimal length (the shortest). -/
theorem section_locator_result (markdown str : String) :
    (sectionPotentialMatches markdown str = [] → findSectionHeader markdown str = none)
    ∧ (∀ m, sectionPotentialMatches markdown str = [m] →
        findSectionHeader markdown str = some m)
    ∧ (2 ≤ (sectionPotentialMatches markdown str).length →
        ∃ m, findSectionHeader markdown str = some m
          ∧ m ∈ sectionPotentialMatches markdown str
          ∧ ∀ x ∈ sectionPotentialMatches markdown str, m.length ≤ x.length) := by
  refine ⟨?_, ?_, ?_⟩
  · intro h
    simp [findSectionHeader, h]
  · intro m h
    simp [findSectionHeader, h]
  · intro hlen
    match hm : sectionPotentialMatches markdown str with
    | [] => rw [hm] at hlen; simp at hlen
    | [m] => rw [hm] at hlen; simp at hlen
    | m :: m2 :: rest =>
      refine ⟨shortestOf (m :: m2 :: rest), ?_, ?_, ?_⟩
      · simp [findSectionHeader, hm]
      · exact shortestOf_mem (m :: m2 :: rest) (by simp)
      · exact shortestOf_min (m :: m2 :: rest)

/-- Witness for C9: text with two matching headings; the shorter one is returned. -/
theorem section_locator_result_witness :
    2 ≤ (sectionPotentialMatches "x## a Options b\n## Options\ntail" "Options").length
    ∧ ∃ m, findSectionHeader "x## a Options b\n## Options\ntail" "Options" = some m
        ∧ m ∈ sectionPotentialMatches "x## a Options b\n## Options\ntail" "Options"
        ∧ ∀ x ∈ sectionPotentialMatches "x## a Options b\n## Options\ntail" "Options",
            m.length ≤ x.length :=
  ⟨by decide,
   (section_locator_result "x## a Options b\n## Options\ntail" "Options").2.2 (by decide)⟩

/-! ## src/lib/rule-notices.ts — notice rendering (lines 24-46, 71-138, 189-212) -/

/-- Modelled from the spec: `getConfigsForRule` (configs.ts is not in src/): the names of
the configs whose resolved rule set enables the prefixed rule (§3 ConfigsToRules maps each
config name to the set of rule names it enables). -/
def getConfigsForRule (ruleName : String) (configsToRules : List (String × List String))
    (pluginPrefix : String) : List String :=
  (configsToRules.filter (fun p => p.2.contains (pluginPrefix ++ "/" ++ ruleName))).map
    (fun p => p.1)

/-- Modelled from the spec: `configNamesToList` (configs.ts is not in src/): the enabling
configs as a comma-joined list of config-name references (§4.3). -/
def configNamesToList (configNames : List String) : String :=
  String.intercalate ", " (configNames.map (fun c => "`" ++ c ++ "`"))

/-- `ruleNamesToList` from src/lib/rule-notices.ts (lines 42-46). -/
def ruleNamesToList (ruleNames : List String) : String :=
  String.intercalate ", " (ruleNames.map (fun r => "[" ++ r ++ "](" ++ r ++ ".md)"))

/-- The `configsLinkOrWord` binding of `getMessages` (src/lib/rule-notices.ts line 25). -/
def configsLinkOrWord : Option String → String
  | some u => "[configs](" ++ u ++ ")"
  | none => "configs"

/-- The `configLinkOrWord` binding of `getMessages` (src/lib/rule-notices.ts line 26). -/
def configLinkOrWord : Option String → String
  | some u => "[config](" ++ u ++ ")"
  | none => "config"

/-- The `configs` message of `getMessages` (src/lib/rule-notices.ts line 30). -/
def MESSAGE_CONFIGS (urlConfigs : Option String) : String :=
  EMOJI_CONFIGS ++ " This rule is enabled in the following "
    ++ configsLinkOrWord urlConfigs ++ ":"

/-- The `configRecommended` message of `getMessages` (src/lib/rule-notices.ts line 31). -/
def MESSAGE_CONFIG_RECOMMENDED (urlConfigs : Option String) : String :=
  EMOJI_CONFIG_RECOMMENDED ++ " This rule is enabled in the `recommended` "
    ++ configLinkOrWord urlConfigs ++ "."

/-- The `deprecated` message of `getMessages` (src/lib/rule-notices.ts line 32). -/
def MESSAGE_DEPRECATED : String := EMOJI_DEPRECATED ++ " This rule is deprecated."

/-- The `fixable` message of `getMessages` (src/lib/rule-notices.ts line 33). -/
def MESSAGE_FIXABLE : String :=
  EMOJI_FIXABLE ++ " This rule is automatically fixable by the `--fix` [CLI option](https://eslint.org/docs/latest/user-guide/command-line-interface#--fix)."

/-- The `hasSuggestions` message of `getMessages` (src/lib/rule-notices.ts line 34). -/
def MESSAGE_HAS_SUGGESTIONS : String :=
  EMOJI_HAS_SUGGESTIONS ++ " This rule is manually fixable by editor [suggestions](https://eslint.org/docs/developer-guide/working-with-rules#providing-suggestions)."

/-- The JS value occupying the `ignoreConfig` parameter slot at runtime.  The declared
type is `string[] | undefined`, but `generate` (src/lib/generator.ts line 141) passes its
title-format string in this position, so the model keeps all three runtime cases;
`ignoreConfig?.includes(config)` is array membership for an array, substring containment
for a string, and (optional chaining) a falsy `undefined` when the slot is `undefined`. -/
inductive JSVal where
  | undef
  | str (s : String)
  | arr (l : List String)

/-- `ignoreConfig?.includes(config)` coerced to a boolean, per JS semantics. -/
def jsIncludesVal : JSVal → String → Bool
  | .undef, _ => false
  | .str s, c => jsIncludes s c
  | .arr l, c => l.contains c

/-- `getRuleNoticeLines` from src/lib/rule-notices.ts (lines 71-138): looks the rule up in
the plugin registry (throwing when absent), returns no lines for a function-style rule,
and otherwise iterates the notices in declaration order (configs, configRecommended,
deprecated, fixable, hasSuggestions), emitting a blank line followed by the message for
each applicable notice. -/
def getRuleNoticeLines (ruleName : String) (plugin : Plugin)
    (configsToRules : List (String × List String)) (pluginPrefix : String)
    (ignoreConfig : JSVal) (urlConfigs : Option String) : Except String (List String) :=
  match (plugin.rules.getD []).lookup ruleName with
  | none => .error "Rule not found"
  | some .fn => .ok []
  | some (.obj rule) =>
    let configsEnabled := (getConfigsForRule ruleName configsToRules pluginPrefix).filter
      (fun config => !jsIncludesVal ignoreConfig config)
    let notices := getNoticesForRule rule configsEnabled
    .ok
      ((if notices.configs then
          ["", MESSAGE_CONFIGS urlConfigs ++ " " ++ configNamesToList configsEnabled ++ "."]
        else [])
      ++ (if notices.configRecommended then ["", MESSAGE_CONFIG_RECOMMENDED urlConfigs]
          else [])
      ++ (if notices.deprecated then
            ["", match rule.meta.replacedBy with
                 | some (r :: rs) =>
                   MESSAGE_DEPRECATED ++ " It was replaced by "
                     ++ ruleNamesToList (r :: rs) ++ "."
                 | _ => MESSAGE_DEPRECATED]
          else [])
      ++ (if notices.fixable then ["", MESSAGE_FIXABLE] else [])
      ++ (if notices.hasSuggestions then ["", MESSAGE_HAS_SUGGESTIONS] else []))

/-- `generateRuleHeaderLines` from src/lib/rule-notices.ts (lines 189-212): the title, the
notice lines, a blank line and the marker, joined by newlines. -/
def generateRuleHeaderLines (description : Option String) (name : String) (plugin : Plugin)
    (configsToRules : List (String × List String)) (pluginPrefix : String)
    (ignoreConfig : JSVal) (ruleDocTitleFormat : Option String)
    (urlConfigs : Option String) : Except String String :=
  match makeTitle name description pluginPrefix ruleDocTitleFormat with
  | .error e => .error e
  | .ok title =>
    match getRuleNoticeLines name plugin configsToRules pluginPrefix ignoreConfig
        urlConfigs with
    | .error e => .error e
    | .ok noticeLines =>
      .ok (String.intercalate "\n" (title :: noticeLines ++ ["", END_RULE_HEADER_MARKER]))

/-- The header computation for one rule inside `generate` (src/lib/generator.ts lines
134-143).  The call passes `options.ruleDocTitleFormat` and `options.urlConfigs` as the
6th and 7th positional arguments, but the 6th, 7th and 8th parameters of
`generateRuleHeaderLines` (src/lib/rule-notices.ts lines 189-198) are `ignoreConfig`,
`ruleDocTitleFormat` and `urlConfigs`; the model reproduces that positional passing, so
the caller-selected title format lands in the `ignoreConfig` slot, the configs URL lands
in the title-format slot, and the `urlConfigs` parameter is `undefined`. -/
def generateHeaderForRule (description : Option String) (name : String) (plugin : Plugin)
    (configsToRules : List (String × List String)) (pluginPrefix : String)
    (ruleDocTitleFormat urlConfigs : Option String) : Except String String :=
  generateRuleHeaderLines description name plugin configsToRules pluginPrefix
    (match ruleDocTitleFormat with
     | some f => JSVal.str f
     | none => JSVal.undef)
    urlConfigs none

/-! ### C4 — the title-format policy input does not take effect (argument mismatch) -/

/-- A one-rule plugin used by concrete instantiations. -/
def pluginNoFoo : Plugin :=
  { rules := some [("no-foo",
      PluginRule.obj ⟨{ docs := some { description := some "Disallow foo." } }⟩)] }

/-- C4 (code-bug evaluation): with the caller-selected title format `name` and a configs
documentation URL, the positional mismatch between `generate`'s call and
`generateRuleHeaderLines`'s parameters sends the URL into the title-format slot, and the
run throws `Unhandled rule doc title format` instead of rendering the `name`-format title
(second conjunct: the title the claim requires the run to produce). -/
theorem title_format_not_applied :
    generateHeaderForRule (some "Disallow foo.") "no-foo" pluginNoFoo [] "test"
        (some "name") (some "https://example.com")
      = Except.error "Unhandled rule doc title format: https://example.com"
    ∧ makeTitle "no-foo" (some "Disallow foo.") "test" (some "name")
      = Except.ok "# `no-foo`" :=
  ⟨rfl, rfl⟩

/-! ## src/lib/generator.ts — validation (lines 21-66, 167-176) -/

/-- Modelled from the spec: `hasOptions` (rule-options.ts is not in src/): whether the
schema declares at least one configurable option; the schema is modelled as the list of
its named option keys (§3, §4.5). -/
def hasOptions (schema : List String) : Bool := !schema.isEmpty

/-- Modelled from the spec: `getAllNamedOptions` (rule-options.ts is not in src/): every
option name extracted from the schema; with the schema modelled as its list of named
option keys this is the identity. -/
def getAllNamedOptions (schema : List String) : List String := schema

/-- `expectContent` from src/lib/generator.ts (lines 21-36): one diagnostic (the
`console.error` message; the failure exit code is modelled by the non-empty result) when
the containment of `content` in `contents` differs from `expected`. -/
def expectContent (ruleName contents content : String) (expected : Bool) : List String :=
  if jsIncludes contents content != expected then
    ["`" ++ ruleName ++ "` rule doc should " ++ (if expected then "" else "not ")
      ++ "have included: " ++ content]
  else []

/-- `expectSectionHeader` from src/lib/generator.ts (lines 38-66). -/
def expectSectionHeader (ruleName contents : String) (possibleHeaders : List String)
    (expected : Bool) : List String :=
  let found := possibleHeaders.any (fun header => (findSectionHeader contents header).isSome)
  if found != expected then
    if possibleHeaders.length > 1 then
      ["`" ++ ruleName ++ "` rule doc should " ++ (if expected then "" else "not ")
        ++ "have included " ++ (if expected then "one" else "any")
        ++ " of these headers: " ++ String.intercalate ", " possibleHeaders]
    else
      ["`" ++ ruleName ++ "` rule doc should " ++ (if expected then "" else "not ")
        ++ "have included the header: " ++ String.intercalate ", " possibleHeaders]
  else []

/-- The options-validation block of `generate` (src/lib/generator.ts lines 167-176): the
Options/Config section check, then one content check per named option. -/
def optionsDiagnostics (name contents : String) (schema : List String) : List String :=
  expectSectionHeader name contents ["Options", "Config"] (hasOptions schema)
    ++ ((getAllNamedOptions schema).map
        (fun opt => expectContent name contents opt true)).flatten

theorem expectSectionHeader_length (ruleName contents : String)
    (possibleHeaders : List String) (expected : Bool) :
    (expectSectionHeader ruleName contents possibleHeaders expected).length
      = if (possibleHeaders.any (fun header => (findSectionHeader contents header).isSome))
            = expected then 0 else 1 := by
  by_cases h : (possibleHeaders.any fun header => (findSectionHeader contents header).isSome)
      = expected
  · simp [expectSectionHeader, h]
  · simp only [expectSectionHeader, bne_iff_ne, ne_eq, h, not_false_eq_true, if_true,
      if_neg h]
    split <;> simp

theorem expectContent_flatten_length (name contents : String) (opts : List String) :
    ((opts.map (fun opt => expectContent name contents opt true)).flatten).length
      = (opts.filter (fun opt => !jsIncludes contents opt)).length := by
  induction opts with
  | nil => rfl
  | cons o os ih =>
    have hstep : ((o :: os).map (fun opt => expectContent name contents opt true)).flatten
        = expectContent name contents o true
          ++ (os.map (fun opt => expectContent name contents opt true)).flatten := by
      simp
    rw [hstep, List.length_append, ih]
    by_cases h : jsIncludes contents o = true
    · simp [expectContent, h, List.filter_cons]
    · have h' : jsIncludes contents o = false := by
        cases hx : jsIncludes contents o
        · rfl
        · exact absurd hx h
      simp [expectContent, h', List.filter_cons]
      omega

/-! ### C7 — options validation -/

/-- C7: the options validation emits one diagnostic exactly when Options/Config section
presence differs from whether the schema declares at least one option, plus one
diagnostic per option name not occurring as a literal substring of the body; in the
spec's scenario (one option `allowList`, body with neither heading nor mention) exactly
two diagnostics result. -/
theorem options_validation_diagnostics :
    (∀ name contents schema,
      (optionsDiagnostics name contents schema).length
        = (if (["Options", "Config"].any
                (fun header => (findSectionHeader contents header).isSome))
              = hasOptions schema then 0 else 1)
          + (schema.filter (fun opt => !jsIncludes contents opt)).length)
    ∧ (optionsDiagnostics "no-foo" "Some rule description.\n\n## Examples\n\nexample\n"
        ["allowList"]).length = 2 := by
  constructor
  · intro name contents schema
    unfold optionsDiagnostics
    rw [List.length_append, expectSectionHeader_length, expectContent_flatten_length]
    rfl
  · decide

/-! ## src/lib/generator.ts — the per-rule loop of `generate` (lines 68-177) -/

/-- Modelled from the spec: the string-level merge step used by `generate` (markdown.ts in
src/ holds the line-level `replaceOrCreateHeader`; the awaited string-level wrapper the
call site uses is not in the snapshot): split into lines, merge per §4.2 through the
line-level function, rejoin; the external markdown pretty-printer (§6) is out of scope
and modelled as the identity. -/
def mergeHeaderString (contents newHeader marker : String) : String :=
  String.intercalate "\n"
    (replaceOrCreateHeader ((splitOnNewlines contents.data).map String.mk)
      ((splitOnNewlines newHeader.data).map String.mk) marker)

/-- The policy options of `generate` relevant to the rule-doc phase. -/
structure GenOptions where
  ruleDocSectionInclude : List String := []
  ruleDocSectionExclude : List String := []
  ruleDocTitleFormat : Option String := none
  urlConfigs : Option String := none

/-- The per-rule loop of `generate` (src/lib/generator.ts lines 120-177), with the
filesystem modelled as `docExists`/`docContents` keyed by rule name.  A missing doc file
aborts the run with a fatal error unless the rule is deprecated (then the rule is
skipped); otherwise the new header is computed and merged and the validation diagnostics
are collected from the pre-merge contents.  The result is the list of written
(rule name, new contents) pairs and the aggregated diagnostics; a thrown error
short-circuits the remaining rules. -/
def generateLoop (plugin : Plugin) (configsToRules : List (String × List String))
    (pluginPrefix : String) (opts : GenOptions) (docExists : String → Bool)
    (docContents : String → String) :
    List RuleDetails → Except String (List (String × String) × List String)
  | [] => .ok ([], [])
  | d :: rest =>
    if !docExists d.name then
      if d.deprecated then
        generateLoop plugin configsToRules pluginPrefix opts docExists docContents rest
      else
        .error ("Could not find rule doc: " ++ d.name)
    else
      match generateHeaderForRule d.description d.name plugin configsToRules pluginPrefix
          opts.ruleDocTitleFormat opts.urlConfigs with
      | .error e => .error e
      | .ok newHeader =>
        let contents := docContents d.name
        let contentsNew := mergeHeaderString contents newHeader END_RULE_HEADER_MARKER
        let diags :=
          (opts.ruleDocSectionInclude.map
            (fun sec => expectSectionHeader d.name contents [sec] true)).flatten
          ++ (opts.ruleDocSectionExclude.map
            (fun sec => expectSectionHeader d.name contents [sec] false)).flatten
          ++ optionsDiagnostics d.name contents d.schema
        match generateLoop plugin configsToRules pluginPrefix opts docExists docContents
            rest with
        | .error e => .error e
        | .ok (written, ds) => .ok ((d.name, contentsNew) :: written, diags ++ ds)

/-- `generate` from src/lib/generator.ts (lines 68-177) restricted to the rule-doc phase
(the README rules-list step delegates to an external collaborator, §6): fatal when the
plugin exports no rule registry, otherwise derives `RuleDetails` for every registered
rule and runs the per-rule loop. -/
def generateModel (plugin : Plugin) (configsToRules : List (String × List String))
    (pluginPrefix : String) (opts : GenOptions) (docExists : String → Bool)
    (docContents : String → String) :
    Except String (List (String × String) × List String) :=
  match plugin.rules with
  | none => .error "Could not find exported `rules` object in ESLint plugin."
  | some rules =>
    generateLoop plugin configsToRules pluginPrefix opts docExists docContents
      (rules.map (fun p => ruleDetailsOf p.1 p.2))

theorem makeTitle_none_ok (name : String) (description : Option String)
    (pluginPrefix : String) :
    ∃ t, makeTitle name description pluginPrefix none = Except.ok t := by
  have hinc : jsIncludes "desc-parens-prefix-name" "desc" = true := rfl
  by_cases h : jsTruthyStr description = true
  · exact ⟨_, by simp [makeTitle, RULE_DOC_TITLE_FORMAT_DEFAULT, hinc, h]; rfl⟩
  · have h' : jsTruthyStr description = false := by
      cases hx : jsTruthyStr description
      · rfl
      · exact absurd hx h
    exact ⟨_, by simp [makeTitle, RULE_DOC_TITLE_FORMAT_DEFAULT, hinc, h']; rfl⟩

theorem getRuleNoticeLines_ok (ruleName : String) (plugin : Plugin)
    (configsToRules : List (String × List String)) (pluginPrefix : String)
    (ignoreConfig : JSVal) (urlConfigs : Option String) (r : PluginRule)
    (h : (plugin.rules.getD []).lookup ruleName = some r) :
    ∃ ls, getRuleNoticeLines ruleName plugin configsToRules pluginPrefix ignoreConfig
        urlConfigs = Except.ok ls := by
  cases r with
  | fn => exact ⟨_, by simp [getRuleNoticeLines, h]; rfl⟩
  | obj rule => exact ⟨_, by simp [getRuleNoticeLines, h]; rfl⟩

theorem generateHeaderForRule_ok (description : Option String) (name : String)
    (plugin : Plugin) (configsToRules : List (String × List String))
    (pluginPrefix : String) (r : PluginRule)
    (h : (plugin.rules.getD []).lookup name = some r) :
    ∃ s, generateHeaderForRule description name plugin configsToRules pluginPrefix
        none none = Except.ok s := by
  obtain ⟨t, ht⟩ := makeTitle_none_ok name description pluginPrefix
  obtain ⟨ls, hls⟩ := getRuleNoticeLines_ok name plugin configsToRules pluginPrefix
    JSVal.undef none r h
  exact ⟨_, by simp [generateHeaderForRule, generateRuleHeaderLines, ht, hls]; rfl⟩

theorem lookup_isSome_of_mem {α β : Type} [BEq α] [LawfulBEq α] (p : α × β)
    (l : List (α × β)) (h : p ∈ l) : ∃ v, l.lookup p.1 = some v := by
  induction l with
  | nil => cases h
  | cons q qs ih =>
    obtain ⟨k, v⟩ := q
    by_cases hk : (p.1 == k) = true
    · exact ⟨v, by simp [List.lookup, hk]⟩
    · have h' : p ∈ qs := by
        rcases List.mem_cons.mp h with he | he
        · subst he
          simp at hk
        · exact he
      obtain ⟨w, hw⟩ := ih h'
      exact ⟨w, by simp [List.lookup, hk, hw]⟩

theorem generateLoop_ok_of_docs (plugin : Plugin)
    (configsToRules : List (String × List String)) (pluginPrefix : String)
    (docExists : String → Bool) (docContents : String → String)
    (details : List RuleDetails)
    (hex : ∀ e ∈ details, docExists e.name = true)
    (hlook : ∀ e ∈ details, ∃ r, (plugin.rules.getD []).lookup e.name = some r) :
    ∃ res, generateLoop plugin configsToRules pluginPrefix {} docExists docContents
        details = Except.ok res := by
  induction details with
  | nil => exact ⟨_, rfl⟩
  | cons d rest ih =>
    obtain ⟨r, hr⟩ := hlook d (by simp)
    obtain ⟨s, hs⟩ := generateHeaderForRule_ok d.description d.name plugin configsToRules
      pluginPrefix r hr
    obtain ⟨res, hres⟩ := ih (fun e he => hex e (by simp [he]))
      (fun e he => hlook e (by simp [he]))
    have hd : docExists d.name = true := hex d (by simp)
    exact ⟨_, by simp [generateLoop, hd, hs, hres]; rfl⟩

/-! ### C8 — the fatal/non-fatal boundary -/

/-- C8: during the rule-doc loop, a non-deprecated rule with no doc file raises a fatal
error that aborts the run; a deprecated rule with no doc file is skipped and processing
continues with the remaining rules; and validation diagnostics never abort: with the
default policy options, a run over registered rules whose docs all exist always completes
with an ok result that carries the aggregated diagnostics. -/
theorem fatal_nonfatal_boundary (plugin : Plugin)
    (configsToRules : List (String × List String)) (pluginPrefix : String)
    (opts : GenOptions) (docExists : String → Bool) (docContents : String → String)
    (d : RuleDetails) (rest : List RuleDetails) :
    (docExists d.name = false → d.deprecated = false →
      generateLoop plugin configsToRules pluginPrefix opts docExists docContents (d :: rest)
        = Except.error ("Could not find rule doc: " ++ d.name))
    ∧ (docExists d.name = false → d.deprecated = true →
      generateLoop plugin configsToRules pluginPrefix opts docExists docContents (d :: rest)
        = generateLoop plugin configsToRules pluginPrefix opts docExists docContents rest)
    ∧ (∀ rules, plugin.rules = some rules →
        (∀ p ∈ rules, docExists p.1 = true) →
        ∃ res, generateModel plugin configsToRules pluginPrefix {} docExists docContents
            = Except.ok res) := by
  refine ⟨?_, ?_, ?_⟩
  · intro h1 h2
    simp [generateLoop, h1, h2]
  · intro h1 h2
    simp [generateLoop, h1, h2]
  · intro rules hrules hdocs
    unfold generateModel
    rw [hrules]
    apply generateLoop_ok_of_docs
    · intro e he
      obtain ⟨p, hp, hpe⟩ := List.mem_map.mp he
      have hname : e.name = p.1 := by rw [← hpe]; cases p.2 <;> rfl
      rw [hname]
      exact hdocs p hp
    · intro e he
      obtain ⟨p, hp, hpe⟩ := List.mem_map.mp he
      have hname : e.name = p.1 := by rw [← hpe]; cases p.2 <;> rfl
      rw [hname, hrules]
      simp only [Option.getD_some]
      exact lookup_isSome_of_mem p rules hp

/-- Witness for C8 at a one-rule plugin and a concrete filesystem: a missing doc aborts
for a non-deprecated rule, is skipped for a deprecated rule, and a run whose docs exist
completes. -/
theorem fatal_nonfatal_boundary_witness :
    (generateLoop pluginNoFoo [] "test" {} (fun n => n == "no-foo")
        (fun _ => "# old\nBody.")
        [{ name := "bad", description := none, fixable := false, hasSuggestions := false,
           requiresTypeChecking := false, deprecated := false, schema := [] }]
      = Except.error ("Could not find rule doc: " ++ "bad"))
    ∧ (generateLoop pluginNoFoo [] "test" {} (fun n => n == "no-foo")
        (fun _ => "# old\nBody.")
        [{ name := "dep", description := none, fixable := false, hasSuggestions := false,
           requiresTypeChecking := false, deprecated := true, schema := [] }]
      = generateLoop pluginNoFoo [] "test" {} (fun n => n == "no-foo")
          (fun _ => "# old\nBody.") [])
    ∧ ∃ res, generateModel pluginNoFoo [] "test" {} (fun n => n == "no-foo")
        (fun _ => "# old\nBody.") = Except.ok res := by
  have h1 := fatal_nonfatal_boundary pluginNoFoo [] "test" {} (fun n => n == "no-foo")
    (fun _ => "# old\nBody.")
    { name := "bad", description := none, fixable := false, hasSuggestions := false,
      requiresTypeChecking := false, deprecated := false, schema := [] } []
  have h2 := fatal_nonfatal_boundary pluginNoFoo [] "test" {} (fun n => n == "no-foo")
    (fun _ => "# old\nBody.")
    { name := "dep", description := none, fixable := false, hasSuggestions := false,
      requiresTypeChecking := false, deprecated := true, schema := [] } []
  refine ⟨h1.1 rfl rfl, h2.2.1 rfl rfl, h2.2.2 _ rfl ?_⟩
  intro p hp
  rw [List.mem_singleton.mp hp]
  rfl
